import Mathlib

/-!
# cosmogony2cities — verification of the transform-batch-load pipeline

Shallow embedding of `src/main.rs`: zone normalization
(`From<Zone> for AdministrativeRegion`), postal-code formatting
(`format_zip_codes`), SQL parameter serialization (`into_sql_params`),
batch query rendering and the transactional load (`send_to_pg`), and the
city filter (`import_zones`).  Geometry text encoding (the external `wkt`
crate) is modelled from the spec.  Coordinates are embedded as integers:
every coordinate the claims mention is integral, and an integral `f64`
renders in well-known text as its plain decimal digits.
-/

/-- `geo_types::Point<f64>`: a coordinate pair.  Embedded with integer
scalars (see module comment). -/
structure Point where
  x : Int
  y : Int
deriving DecidableEq, Repr

/-- `geo_types::LineString<f64>`: one ring of a polygon, as its ordered
coordinate list. -/
abbrev LineString := List Point

/-- `geo_types::Polygon<f64>`: an outer ring plus zero or more hole rings. -/
structure Polygon where
  exterior : LineString
  interiors : List LineString
deriving DecidableEq, Repr

/-- `geo_types::MultiPolygon<f64>`: an ordered list of polygons. -/
abbrev MultiPolygon := List Polygon

/-- `cosmogony::ZoneType` classification enum. -/
inductive ZoneType
  | suburb
  | cityDistrict
  | city
  | stateDistrict
  | state
  | countryRegion
  | country
  | nonAdministrative
deriving DecidableEq, Repr

/-- `cosmogony::ZoneIndex` (the `id` field of a zone). -/
structure ZoneIndex where
  index : Nat
deriving DecidableEq, Repr

/-- The fields of `cosmogony::Zone` read by `main.rs`: `id.index`, `name`,
`osm_id`, `tags`, `center`, `boundary`, `zone_type`.  The tag map is a
key-value association list with unique keys (a `Tags` map in the source). -/
structure Zone where
  id : ZoneIndex
  name : String
  osm_id : String
  tags : List (String × String)
  center : Option Point
  boundary : Option MultiPolygon
  zone_type : Option ZoneType
deriving DecidableEq, Repr

/-- `zone.tags.get(key)`: lookup in the tag map. -/
def tagsGet (tags : List (String × String)) (key : String) : Option String :=
  (tags.find? (fun p => p.1 == key)).map (fun p => p.2)

/-- Rust byte-order comparison of UTF-8 strings, on code-point lists
(UTF-8 byte order coincides with code-point order): `a <= b` for
`Ord for String`. -/
def charLe : List Char → List Char → Bool
  | [], _ => true
  | _ :: _, [] => false
  | a :: as, b :: bs =>
    if a.toNat < b.toNat then true
    else if b.toNat < a.toNat then false
    else charLe as bs

/-- `a <= b` on Rust strings (byte/lexicographic order). -/
def strLe (a b : String) : Bool := charLe a.data b.data

/-- `itertools::sorted()` on strings: a sort of the list by `strLe`. -/
def sortStrings (l : List String) : List String :=
  List.insertionSort (fun a b => strLe a b) l

/-- `format_zip_codes` from `main.rs`: `None` for an empty list, the sole
element for a singleton, `"<first>-<last>"` otherwise. -/
def format_zip_codes : List String → Option String
  | [] => none
  | [z] => some z
  | z :: zs => some (z ++ "-" ++ (zs.getLastD z))

/-- The canonical record `AdministrativeRegion` from `main.rs`.  `coord`
and `boundary` keep their geometric form; `into_sql_params` encodes them. -/
structure AdministrativeRegion where
  id : Int
  name : String
  uri : String
  post_code : Option String
  insee : Option String
  level : Option Int
  coord : Option Point
  boundary : Option MultiPolygon
deriving DecidableEq, Repr

/-- The postal-code segment list computed inside `From<Zone>`: read
`addr:postcode` (falling back to `postal_code`), default to `""`, split on
`';'`, keep non-empty segments, sort.  Splitting is on the code-point
list, matching Rust `str::split(';')`. -/
def zipCodesOfZone (zone : Zone) : List String :=
  sortStrings
    ((List.splitOn ';'
        (((tagsGet zone.tags "addr:postcode").or
            (tagsGet zone.tags "postal_code")).getD "").data).map
      (fun cs => String.mk cs) |>.filter (fun s => !s.isEmpty))

/-- `impl From<Zone> for AdministrativeRegion` from `main.rs`. -/
def fromZone (zone : Zone) : AdministrativeRegion :=
  let insee := tagsGet zone.tags "ref:INSEE"
  let uri :=
    match insee with
    | some i => "admin:fr:" ++ i
    | none => "admin:osm:" ++ zone.osm_id
  { id := Int.ofNat zone.id.index
    name := zone.name
    uri := uri
    insee := insee
    level := some 8
    post_code := format_zip_codes (zipCodesOfZone zone)
    coord := zone.center
    boundary := zone.boundary }

/-- Join a list of strings with a separator (used by the well-known-text
encoder below). -/
def joinSep (sep : String) : List String → String
  | [] => ""
  | [x] => x
  | x :: y :: xs => x ++ sep ++ joinSep sep (y :: xs)

/-- Modelled from the spec: the Geometry Encoder's rendering of one
coordinate pair, `<x> <y>` (the encoder itself lives in the external
`wkt` crate, outside this repository's sources; the spec fixes the format
`POINT(<x> <y>)` and passes coordinate values through unchanged). -/
def wktCoord (p : Point) : String := toString p.x ++ " " ++ toString p.y

/-- Modelled from the spec: well-known text of a point, `POINT(<x> <y>)`. -/
def wktPoint (p : Point) : String := "POINT(" ++ wktCoord p ++ ")"

/-- Modelled from the spec: one ring, a parenthesized comma-separated list
of `<x> <y>` pairs in original order. -/
def wktRing (r : LineString) : String :=
  "(" ++ joinSep "," (r.map wktCoord) ++ ")"

/-- Modelled from the spec: one polygon, its outer ring first then hole
rings, each parenthesized, the whole parenthesized. -/
def wktPolygon (p : Polygon) : String :=
  "(" ++ joinSep "," ((p.exterior :: p.interiors).map wktRing) ++ ")"

/-- Modelled from the spec: well-known text of a multi-polygon,
`MULTIPOLYGON(...)` with polygons separated by `),(`. -/
def wktMultiPolygon (ps : MultiPolygon) : String :=
  "MULTIPOLYGON(" ++ joinSep "," (ps.map wktPolygon) ++ ")"

/-- One boxed SQL parameter (`Box<dyn ToSql>`) as produced by
`into_sql_params`: the constructor records the Rust type sent. -/
inductive SqlParam
  | i64 (v : Int)
  | text (v : String)
  | optionText (v : Option String)
  | optionI32 (v : Option Int)
deriving DecidableEq, Repr

/-- `AdministrativeRegion::into_sql_params` from `main.rs`: the ordered
8-element parameter vector; `coord` and `boundary` are first mapped to
their well-known-text strings (absent stays absent). -/
def into_sql_params (a : AdministrativeRegion) : List SqlParam :=
  let coord := a.coord.map wktPoint
  let boundary := a.boundary.map wktMultiPolygon
  [SqlParam.i64 a.id, SqlParam.text a.name, SqlParam.text a.uri,
   SqlParam.optionText a.post_code, SqlParam.optionText a.insee,
   SqlParam.optionI32 a.level, SqlParam.optionText coord,
   SqlParam.optionText boundary]

/-- One `VALUES` row of the rendered insert statement, for row index `i`
(from the loop body in `send_to_pg`): placeholders `$ i*8+1 .. $ i*8+8`,
the last two wrapped in `ST_GeomFromText`. -/
def placeholderRow (i : Nat) : String :=
  let base_cpt := i * 8
  "($" ++ toString (base_cpt + 1) ++ ", $" ++ toString (base_cpt + 2) ++
    ", $" ++ toString (base_cpt + 3) ++ ", $" ++ toString (base_cpt + 4) ++
    ", $" ++ toString (base_cpt + 5) ++ ", $" ++ toString (base_cpt + 6) ++
    ", ST_GeomFromText($" ++ toString (base_cpt + 7) ++
    "), ST_GeomFromText($" ++ toString (base_cpt + 8) ++ "))"

/-- The row-list part of the query built by the loop
`for i in 0..nb_admins` in `send_to_pg`: rows joined by `", "` (the loop
prepends the separator for every `i != 0`). -/
def queryRows : Nat → String
  | 0 => ""
  | n + 1 =>
    queryRows n ++ (if n = 0 then "" else ", ") ++ placeholderRow n

/-- The full statement rendered for a chunk of `n` records in
`send_to_pg`. -/
def buildQuery (n : Nat) : String :=
  "INSERT INTO administrative_regions VALUES " ++ queryRows n ++ ";"

/-- `par_map::pack(S)` on a list, fuel-driven so that it evaluates by
kernel reduction; `pack` below supplies fuel `l.length`, which is always
enough.  Each step takes the first `S` elements and recurses on the rest
(for `x :: xs`, `(x :: xs).drop S = xs.drop (S - 1)` when `0 < S`). -/
def packFuel (S : Nat) : Nat → List α → List (List α)
  | _, [] => []
  | 0, _ :: _ => []
  | fuel + 1, x :: xs => ((x :: xs).take S) :: packFuel S fuel (xs.drop (S - 1))

/-- `admins.pack(S)`: partition a list into consecutive chunks of at most
`S` elements. -/
def pack (S : Nat) (l : List α) : List (List α) := packFuel S l.length l

/-- The statement/chunk pairs produced by
`admins.pack(500).par_map(|chunk| (query, chunk))` in `send_to_pg`: the
rendering closure is pure, so the result is this map over the chunks,
independent of worker scheduling. -/
def renderedBatches (admins : List (List SqlParam)) :
    List (String × List (List SqlParam)) :=
  (pack 500 admins).map (fun chunk => (buildQuery chunk.length, chunk))

/-- One statement executed against the transaction in `send_to_pg`:
the `TRUNCATE`, or one batch insert with its query text and its rows
(each row being one record's parameter vector; the source flattens them
into one parameter slice). -/
inductive PgStmt
  | truncate
  | insert (query : String) (rows : List (List SqlParam))
deriving DecidableEq, Repr

/-- The statements `send_to_pg` executes, in order: the `TRUNCATE`, then
one insert per rendered batch. -/
def stmtsOf (admins : List (List SqlParam)) : List PgStmt :=
  PgStmt.truncate ::
    (renderedBatches admins).map (fun qc => PgStmt.insert qc.1 qc.2)

/-- Effect of one successfully executed statement on the
`administrative_regions` table contents (a list of rows): `TRUNCATE`
clears it, a batch insert appends its rows. -/
def applyStmt (table : List (List SqlParam)) : PgStmt → List (List SqlParam)
  | PgStmt.truncate => []
  | PgStmt.insert _ rows => table ++ rows

/-- Execute statements inside the transaction, given an oracle `ok`
saying which statements the store accepts.  Returns the list of
statements actually attempted and, when every one succeeded, the
resulting table contents; `none` means the run aborted at the first
failing statement (Rust `?` propagation). -/
def execStmts (ok : PgStmt → Bool) (table : List (List SqlParam)) :
    List PgStmt → List PgStmt × Option (List (List SqlParam))
  | [] => ([], some table)
  | s :: rest =>
    if ok s then
      let r := execStmts ok (applyStmt table s) rest
      (s :: r.1, r.2)
    else ([s], none)

/-- The visible database state: the committed contents of
`administrative_regions`. -/
structure DB where
  table : List (List SqlParam)
deriving DecidableEq, Repr

/-- `send_to_pg` from `main.rs`, over the transactional-store model:
open a transaction (`beginOk`), execute `TRUNCATE` then every batch
statement stopping at the first failure, then `COMMIT` (`commitOk`).
Only a successful commit publishes the new contents; any failure leaves
the committed state unchanged (the transaction is dropped, hence rolled
back).  Returns the new visible state, whether the run succeeded, and
the statements attempted inside the transaction. -/
def send_to_pg (beginOk : Bool) (ok : PgStmt → Bool) (commitOk : Bool)
    (db : DB) (admins : List (List SqlParam)) : DB × Bool × List PgStmt :=
  if beginOk then
    let r := execStmts ok db.table (stmtsOf admins)
    match r.2 with
    | some t => if commitOk then (⟨t⟩, true, r.1) else (db, false, r.1)
    | none => (db, false, r.1)
  else (db, false, [])

/-- The filter-and-normalize step of `import_zones`: keep the zones whose
`zone_type` is `Some(City)`, normalize each, serialize each to its
parameter vector. -/
def cities (zones : List Zone) : List (List SqlParam) :=
  ((zones.filter (fun z => z.zone_type == some ZoneType.city)).map
      fromZone).map into_sql_params

/-- `import_zones` from `main.rs`: the city pipeline fed to `send_to_pg`. -/
def import_zones (beginOk : Bool) (ok : PgStmt → Bool) (commitOk : Bool)
    (db : DB) (zones : List Zone) : DB × Bool × List PgStmt :=
  send_to_pg beginOk ok commitOk db (cities zones)

/-! ## Order properties of the byte-order comparison -/

theorem charLe_cons_iff (a b : Char) (as bs : List Char) :
    charLe (a :: as) (b :: bs) = true ↔
      a.toNat < b.toNat ∨ (a.toNat = b.toNat ∧ charLe as bs = true) := by
  simp only [charLe]
  split_ifs with h1 h2
  · simp [h1]
  · constructor
    · intro h; exact absurd h (by simp)
    · rintro (h | ⟨h, _⟩) <;> omega
  · constructor
    · intro h; right; exact ⟨by omega, h⟩
    · rintro (h | ⟨_, h⟩)
      · omega
      · exact h

theorem charLe_total : ∀ as bs : List Char, charLe as bs = true ∨ charLe bs as = true := by
  intro as
  induction as with
  | nil => intro bs; left; rfl
  | cons a as ih =>
    intro bs
    cases bs with
    | nil => right; rfl
    | cons b bs =>
      rw [charLe_cons_iff, charLe_cons_iff]
      rcases Nat.lt_trichotomy a.toNat b.toNat with h | h | h
      · left; left; exact h
      · rcases ih bs with hc | hc
        · left; right; exact ⟨h, hc⟩
        · right; right; exact ⟨h.symm, hc⟩
      · right; left; exact h

theorem charLe_trans : ∀ as bs cs : List Char,
    charLe as bs = true → charLe bs cs = true → charLe as cs = true := by
  intro as
  induction as with
  | nil => intro bs cs _ _; rfl
  | cons a as ih =>
    intro bs cs hab hbc
    cases bs with
    | nil => simp [charLe] at hab
    | cons b bs =>
      cases cs with
      | nil => simp [charLe] at hbc
      | cons c cs =>
        rw [charLe_cons_iff] at hab hbc ⊢
        rcases hab with h1 | ⟨h1, h1c⟩ <;> rcases hbc with h2 | ⟨h2, h2c⟩
        · left; omega
        · left; omega
        · left; omega
        · right; exact ⟨by omega, ih bs cs h1c h2c⟩

instance : IsTotal String (fun a b => strLe a b = true) :=
  ⟨fun a b => charLe_total a.data b.data⟩

instance : IsTrans String (fun a b => strLe a b = true) :=
  ⟨fun a b c => charLe_trans a.data b.data c.data⟩

theorem sortStrings_sorted (l : List String) :
    (sortStrings l).Sorted (fun a b => strLe a b = true) :=
  List.sorted_insertionSort _ l

theorem sortStrings_perm (l : List String) : (sortStrings l).Perm l :=
  List.perm_insertionSort _ l

/-! ## The two uri forms are disjoint -/

theorem admin_fr_ne_osm (v w : String) : "admin:fr:" ++ v ≠ "admin:osm:" ++ w := by
  intro h
  have hd := congrArg String.data h
  rw [String.data_append, String.data_append] at hd
  have h1 : ("admin:fr:").data = ['a','d','m','i','n',':','f','r',':'] := rfl
  have h2 : ("admin:osm:").data = ['a','d','m','i','n',':','o','s','m',':'] := rfl
  rw [h1, h2] at hd
  simp at hd

/-! ## The rendered statement as a joined row list -/

theorem joinSep_append_singleton (sep x : String) : ∀ l : List String,
    joinSep sep (l ++ [x]) =
      (if l.isEmpty then x else joinSep sep l ++ sep ++ x) := by
  intro l
  induction l with
  | nil => rfl
  | cons a l ih =>
    cases l with
    | nil => rfl
    | cons b l2 =>
      rw [if_neg (by simp)] at ih
      have hstep : joinSep sep ((a :: b :: l2) ++ [x])
          = a ++ sep ++ joinSep sep ((b :: l2) ++ [x]) := by
        simp only [List.cons_append]
        rfl
      rw [hstep, ih, if_neg (by simp)]
      show a ++ sep ++ (joinSep sep (b :: l2) ++ sep ++ x)
          = a ++ sep ++ joinSep sep (b :: l2) ++ sep ++ x
      simp [String.append_assoc]

theorem queryRows_eq (n : Nat) :
    queryRows n = joinSep ", " ((List.range n).map placeholderRow) := by
  induction n with
  | zero => rfl
  | succ n ih =>
    rw [List.range_succ, List.map_append, List.map_singleton,
      joinSep_append_singleton]
    cases n with
    | zero =>
      simp only [List.range_zero, List.map_nil, List.isEmpty_nil, if_pos]
      show queryRows 0 ++ "" ++ placeholderRow 0 = placeholderRow 0
      rw [String.append_empty]
      exact String.empty_append _
    | succ m =>
      have hne : ((List.range (m + 1)).map placeholderRow).isEmpty = false := by
        simp [List.range_succ]
      rw [hne]
      simp only [Bool.false_eq_true, if_neg, if_false]
      show queryRows (m + 1) ++ ", " ++ placeholderRow (m + 1)
          = joinSep ", " ((List.range (m + 1)).map placeholderRow) ++ ", "
              ++ placeholderRow (m + 1)
      rw [ih]

/-! ## Chunking correctness of `pack` -/

theorem packFuel_cons (S : Nat) (hS : 0 < S) (fuel : Nat) (x : α) (xs : List α) :
    packFuel S (fuel + 1) (x :: xs)
      = ((x :: xs).take S) :: packFuel S fuel ((x :: xs).drop S) := by
  have hd : (x :: xs).drop S = xs.drop (S - 1) := by
    cases S with
    | zero => omega
    | succ n => simp
  rw [hd]
  rfl

theorem packFuel_flatten (S : Nat) (hS : 0 < S) : ∀ (fuel : Nat) (l : List α),
    l.length ≤ fuel → (packFuel S fuel l).flatten = l := by
  intro fuel
  induction fuel with
  | zero =>
    intro l hl
    cases l with
    | nil => rfl
    | cons x xs => simp at hl
  | succ fuel ih =>
    intro l hl
    cases l with
    | nil => rfl
    | cons x xs =>
      rw [packFuel_cons S hS, List.flatten_cons, ih ((x :: xs).drop S) ?_,
        List.take_append_drop]
      simp only [List.length_drop, List.length_cons] at *
      omega

theorem pack_flatten (S : Nat) (hS : 0 < S) (l : List α) :
    (pack S l).flatten = l :=
  packFuel_flatten S hS l.length l (Nat.le_refl _)

theorem packFuel_length (S : Nat) (hS : 0 < S) : ∀ (fuel : Nat) (l : List α),
    l.length ≤ fuel → (packFuel S fuel l).length = (l.length + S - 1) / S := by
  intro fuel
  induction fuel with
  | zero =>
    intro l hl
    cases l with
    | nil =>
      simp only [packFuel, List.length_nil]
      rw [Nat.div_eq_of_lt (by omega)]
    | cons x xs => simp at hl
  | succ fuel ih =>
    intro l hl
    cases l with
    | nil =>
      simp only [packFuel, List.length_nil]
      rw [Nat.div_eq_of_lt (by omega)]
    | cons x xs =>
      have hbound : ((x :: xs).drop S).length ≤ fuel := by
        simp only [List.length_drop, List.length_cons]
        simp only [List.length_cons] at hl
        omega
      rw [packFuel_cons S hS, List.length_cons, ih ((x :: xs).drop S) hbound]
      have hlen : (x :: xs).length = xs.length + 1 := rfl
      rw [List.length_drop, hlen]
      rcases Nat.lt_or_ge (xs.length + 1) S with hc | hc
      · have h1 : xs.length + 1 - S + S - 1 = S - 1 := by omega
        have h2 : xs.length + 1 + S - 1 = xs.length + S := by omega
        rw [h1, h2, Nat.div_eq_of_lt (by omega), Nat.add_div_right _ hS,
          Nat.div_eq_of_lt (by omega)]
      · have h1 : xs.length + 1 - S + S - 1 = xs.length := by omega
        have h2 : xs.length + 1 + S - 1 = xs.length + S := by omega
        rw [h1, h2, Nat.add_div_right _ hS]

theorem pack_length (S : Nat) (hS : 0 < S) (l : List α) :
    (pack S l).length = (l.length + S - 1) / S :=
  packFuel_length S hS l.length l (Nat.le_refl _)

theorem packFuel_mem (S : Nat) (hS : 0 < S) : ∀ (fuel : Nat) (l : List α)
    (c : List α), l.length ≤ fuel → c ∈ packFuel S fuel l →
    c ≠ [] ∧ c.length ≤ S := by
  intro fuel
  induction fuel with
  | zero =>
    intro l c hl hc
    cases l with
    | nil => simp [packFuel] at hc
    | cons x xs => simp at hl
  | succ fuel ih =>
    intro l c hl hc
    cases l with
    | nil => simp [packFuel] at hc
    | cons x xs =>
      rw [packFuel_cons S hS, List.mem_cons] at hc
      rcases hc with hc | hc
      · subst hc
        constructor
        · intro hnil
          have hlen := congrArg List.length hnil
          rw [List.length_take] at hlen
          simp only [List.length_cons, List.length_nil] at hlen
          omega
        · rw [List.length_take]
          exact Nat.min_le_left _ _
      · apply ih ((x :: xs).drop S) c ?_ hc
        simp only [List.length_drop, List.length_cons]
        simp only [List.length_cons] at hl
        omega

theorem pack_mem (S : Nat) (hS : 0 < S) (l : List α) (c : List α)
    (hc : c ∈ pack S l) : c ≠ [] ∧ c.length ≤ S :=
  packFuel_mem S hS l.length l c (Nat.le_refl _) hc

theorem packFuel_full (S : Nat) (hS : 0 < S) : ∀ (fuel : Nat) (l : List α)
    (i : Nat), l.length ≤ fuel → i + 1 < (packFuel S fuel l).length →
    ∃ c, (packFuel S fuel l)[i]? = some c ∧ c.length = S := by
  intro fuel
  induction fuel with
  | zero =>
    intro l i hl hi
    cases l with
    | nil => simp [packFuel] at hi
    | cons x xs => simp at hl
  | succ fuel ih =>
    intro l i hl hi
    cases l with
    | nil => simp [packFuel] at hi
    | cons x xs =>
      rw [packFuel_cons S hS] at hi ⊢
      cases i with
      | zero =>
        refine ⟨(x :: xs).take S, by simp, ?_⟩
        rw [List.length_take]
        rcases Nat.lt_or_ge (xs.length + 1) S with hc | hc
        · exfalso
          have hdrop : (x :: xs).drop S = [] := by
            apply List.drop_eq_nil_of_le
            simp only [List.length_cons]
            omega
          rw [hdrop] at hi
          simp [packFuel] at hi
        · simp only [List.length_cons]
          omega
      | succ j =>
        simp only [List.getElem?_cons_succ]
        apply ih ((x :: xs).drop S) j ?_ ?_
        · simp only [List.length_drop, List.length_cons]
          simp only [List.length_cons] at hl
          omega
        · simp only [List.length_cons] at hi
          omega

theorem pack_full (S : Nat) (hS : 0 < S) (l : List α) (i : Nat)
    (hi : i + 1 < (pack S l).length) :
    ∃ c, (pack S l)[i]? = some c ∧ c.length = S :=
  packFuel_full S hS l.length l i (Nat.le_refl _) hi

/-! ## Execution of statements inside the transaction -/

theorem execStmts_trace (ok : PgStmt → Bool) : ∀ (stmts : List PgStmt)
    (table : List (List SqlParam)),
    (execStmts ok table stmts).1
      = stmts.takeWhile ok ++ (stmts.dropWhile ok).take 1 := by
  intro stmts
  induction stmts with
  | nil => intro table; rfl
  | cons s rest ih =>
    intro table
    rcases Bool.eq_false_or_eq_true (ok s) with hs | hs
    · simp [execStmts, hs, List.takeWhile_cons, List.dropWhile_cons]
      exact ih _
    · simp [execStmts, hs, List.takeWhile_cons, List.dropWhile_cons, ih]

theorem execStmts_some_iff (ok : PgStmt → Bool) : ∀ (stmts : List PgStmt)
    (table : List (List SqlParam)),
    (execStmts ok table stmts).2.isSome = true ↔ ∀ s ∈ stmts, ok s = true := by
  intro stmts
  induction stmts with
  | nil =>
    intro table
    simp [execStmts]
  | cons s rest ih =>
    intro table
    by_cases hs : ok s = true
    · simp only [execStmts, hs, if_pos, List.mem_cons]
      rw [ih]
      constructor
      · intro h t ht
        rcases ht with ht | ht
        · subst ht; exact hs
        · exact h t ht
      · intro h t ht
        exact h t (Or.inr ht)
    · simp only [execStmts, hs, Bool.false_eq_true, if_false]
      simp only [Option.isSome_none, Bool.false_eq_true, false_iff]
      intro h
      exact hs (h s (List.mem_cons_self s rest))

theorem execStmts_result (ok : PgStmt → Bool) : ∀ (stmts : List PgStmt)
    (table : List (List SqlParam)), (∀ s ∈ stmts, ok s = true) →
    (execStmts ok table stmts).2 = some (stmts.foldl applyStmt table) := by
  intro stmts
  induction stmts with
  | nil => intro table _; rfl
  | cons s rest ih =>
    intro table h
    have hs : ok s = true := h s (List.mem_cons_self s rest)
    simp only [execStmts, hs, if_pos, List.foldl_cons]
    exact ih (applyStmt table s) (fun t ht => h t (List.mem_cons_of_mem s ht))

theorem foldl_insert_batches : ∀ (batches : List (String × List (List SqlParam)))
    (t : List (List SqlParam)),
    List.foldl applyStmt t (batches.map (fun qc => PgStmt.insert qc.1 qc.2))
      = t ++ (batches.map (fun qc => qc.2)).flatten := by
  intro batches
  induction batches with
  | nil => intro t; simp
  | cons b rest ih =>
    intro t
    simp only [List.map_cons, List.foldl_cons, List.flatten_cons, ih,
      applyStmt, List.append_assoc]

theorem renderedBatches_chunks (admins : List (List SqlParam)) :
    (renderedBatches admins).map (fun qc => qc.2) = pack 500 admins := by
  rw [renderedBatches, List.map_map]
  exact List.map_id _

theorem stmtsOf_foldl (admins : List (List SqlParam))
    (t : List (List SqlParam)) :
    List.foldl applyStmt t (stmtsOf admins) = admins := by
  rw [stmtsOf, List.foldl_cons]
  show List.foldl applyStmt []
      ((renderedBatches admins).map (fun qc => PgStmt.insert qc.1 qc.2)) = admins
  rw [foldl_insert_batches, List.nil_append, renderedBatches_chunks]
  exact pack_flatten 500 (by omega) admins

/-! ## Projections of the normalizer (definitional) -/

theorem fromZone_post_code (z : Zone) :
    (fromZone z).post_code = format_zip_codes (zipCodesOfZone z) := rfl

theorem fromZone_insee (z : Zone) :
    (fromZone z).insee = tagsGet z.tags "ref:INSEE" := rfl

theorem fromZone_uri_eq (z : Zone) :
    (fromZone z).uri = (match tagsGet z.tags "ref:INSEE" with
      | some i => "admin:fr:" ++ i
      | none => "admin:osm:" ++ z.osm_id) := rfl

/-! ## Sample inputs (mirroring the integration test of `main.rs`) -/

/-- The unit-square multi-polygon of the integration test. -/
def unitSquare : MultiPolygon :=
  [⟨[⟨0, 0⟩, ⟨1, 0⟩, ⟨1, 1⟩, ⟨0, 1⟩, ⟨0, 0⟩], []⟩]

/-- The test's `zone2`: a city with INSEE and two postal codes. -/
def zoneCity : Zone :=
  { id := ⟨1⟩, name := "toto", osm_id := ""
    tags := [("ref:INSEE", "75111"), ("addr:postcode", "75011;75111")]
    center := some ⟨12, 14⟩, boundary := some unitSquare
    zone_type := some ZoneType.city }

/-- The test's `zone3`: a city whose INSEE code has a leading zero. -/
def zoneInseeZero : Zone :=
  { id := ⟨2⟩, name := "insee with zero", osm_id := "insee_with_zero"
    tags := [("ref:INSEE", "01249"), ("addr:postcode", "01700")]
    center := none, boundary := none, zone_type := some ZoneType.city }

/-- A city with a single postal code and no INSEE tag. -/
def zoneOnePost : Zone :=
  { id := ⟨3⟩, name := "one", osm_id := "one_osm"
    tags := [("addr:postcode", "75011")]
    center := none, boundary := none, zone_type := some ZoneType.city }

/-- A city whose `ref:INSEE` tag maps to the empty string. -/
def zoneEmptyInsee : Zone :=
  { id := ⟨4⟩, name := "void", osm_id := "void_osm"
    tags := [("ref:INSEE", "")]
    center := none, boundary := none, zone_type := some ZoneType.city }

/-- A city with an empty display name (every field at its Rust default
except the classification). -/
def zoneEmptyName : Zone :=
  { id := ⟨5⟩, name := "", osm_id := "anon"
    tags := [], center := none, boundary := none
    zone_type := some ZoneType.city }

/-- A zone that is not a city. -/
def zoneSuburb : Zone :=
  { id := ⟨6⟩, name := "sub", osm_id := "sub_osm"
    tags := [], center := none, boundary := none
    zone_type := some ZoneType.suburb }

/-! ## Claims -/

/-- C8: for every zone consumed by the pipeline, the canonical record's
`level` field is the constant 8 regardless of input, and it is sent as the
sixth SQL parameter. -/
theorem level_is_constant_8 (z : Zone) :
    (fromZone z).level = some 8 ∧
    (into_sql_params (fromZone z))[5]? = some (SqlParam.optionI32 (some 8)) :=
  ⟨rfl, rfl⟩

/-- C9 (counterexample): the claim "the canonical record's name is a
non-empty display string" fails at a zone whose display name is empty:
normalization copies the empty name through. -/
theorem name_nonempty_cex :
    (fromZone zoneEmptyName).name = "" ∧
    ¬ (∀ z : Zone, (fromZone z).name ≠ "") :=
  ⟨rfl, fun h => h zoneEmptyName rfl⟩

/-- C9 (amended): the canonical record's name is copied verbatim from the
zone's display name, so it is non-empty exactly when the input name is. -/
theorem name_copied_verbatim (z : Zone) :
    (fromZone z).name = z.name ∧
    (z.name ≠ "" → (fromZone z).name ≠ "") := by
  refine ⟨rfl, ?_⟩
  intro h
  simpa [show (fromZone z).name = z.name from rfl] using h

theorem name_copied_verbatim_witness : (fromZone zoneCity).name ≠ "" :=
  (name_copied_verbatim zoneCity).2 (by decide)

/-- C3: `insee` is the `ref:INSEE` tag value verbatim when the key is
present and `uri` is then `admin:fr:` followed by it; otherwise `insee`
is absent and `uri` is `admin:osm:` followed by the zone's source
identifier; exactly one of the two uri forms is produced, never both and
never neither. -/
theorem uri_insee_derivation (z : Zone) :
    (∀ v, tagsGet z.tags "ref:INSEE" = some v →
      (fromZone z).insee = some v ∧ (fromZone z).uri = "admin:fr:" ++ v) ∧
    (tagsGet z.tags "ref:INSEE" = none →
      (fromZone z).insee = none ∧
        (fromZone z).uri = "admin:osm:" ++ z.osm_id) ∧
    ((∃ v, (fromZone z).uri = "admin:fr:" ++ v) ∨
      (∃ w, (fromZone z).uri = "admin:osm:" ++ w)) ∧
    ¬ ((∃ v, (fromZone z).uri = "admin:fr:" ++ v) ∧
      (∃ w, (fromZone z).uri = "admin:osm:" ++ w)) := by
  refine ⟨?_, ?_, ?_, ?_⟩
  · intro v hv
    constructor
    · rw [fromZone_insee, hv]
    · rw [fromZone_uri_eq, hv]
  · intro hn
    constructor
    · rw [fromZone_insee, hn]
    · rw [fromZone_uri_eq, hn]
  · cases hv : tagsGet z.tags "ref:INSEE" with
    | none =>
      right
      exact ⟨z.osm_id, by rw [fromZone_uri_eq, hv]⟩
    | some v =>
      left
      exact ⟨v, by rw [fromZone_uri_eq, hv]⟩
  · rintro ⟨⟨v, hv⟩, ⟨w, hw⟩⟩
    exact admin_fr_ne_osm v w (hv.symm.trans hw)

theorem uri_insee_derivation_witness :
    (fromZone zoneInseeZero).insee = some "01249" ∧
    (fromZone zoneInseeZero).uri = "admin:fr:01249" :=
  (uri_insee_derivation zoneInseeZero).1 "01249" (by decide)

/-- C10: normalization tests only the presence of the `ref:INSEE` key:
for a zone whose tag maps to the empty string, `insee` is `some ""` and
`uri` is exactly `admin:fr:`; the `admin:osm` fallback is not taken. -/
theorem insee_presence_not_value :
    (fromZone zoneEmptyInsee).insee = some "" ∧
    (fromZone zoneEmptyInsee).uri = "admin:fr:" ∧
    ¬ ∃ w, (fromZone zoneEmptyInsee).uri = "admin:osm:" ++ w := by
  refine ⟨rfl, by decide, ?_⟩
  rintro ⟨w, hw⟩
  have h1 : (fromZone zoneEmptyInsee).uri = "admin:fr:" ++ "" := by decide
  exact admin_fr_ne_osm "" w (h1.symm.trans hw)

/-- C2: `post_code` derivation: the segment list is the postal-code tag
value (`addr:postcode`, falling back to `postal_code`) split on `;` with
empty segments discarded, sorted lexicographically (byte order); zero
segments give no `post_code`, one gives that segment, two or more give
`"<first>-<last>"` of the sorted list. -/
theorem post_code_derivation (z : Zone) :
    (zipCodesOfZone z).Sorted (fun a b => strLe a b = true) ∧
    (zipCodesOfZone z).Perm
      (((List.splitOn ';'
          (((tagsGet z.tags "addr:postcode").or
              (tagsGet z.tags "postal_code")).getD "").data).map
        (fun cs => String.mk cs)).filter (fun s => !s.isEmpty)) ∧
    (zipCodesOfZone z = [] → (fromZone z).post_code = none) ∧
    (∀ s, zipCodesOfZone z = [s] → (fromZone z).post_code = some s) ∧
    (2 ≤ (zipCodesOfZone z).length →
      ∃ a b, (zipCodesOfZone z).head? = some a ∧
        (zipCodesOfZone z).getLast? = some b ∧
        (fromZone z).post_code = some (a ++ "-" ++ b)) := by
  refine ⟨sortStrings_sorted _, sortStrings_perm _, ?_, ?_, ?_⟩
  · intro h
    rw [fromZone_post_code, h]
    rfl
  · intro s h
    rw [fromZone_post_code, h]
    rfl
  · intro h2
    rcases hz : zipCodesOfZone z with _ | ⟨a, _ | ⟨b, t⟩⟩
    · rw [hz] at h2
      simp at h2
    · rw [hz] at h2
      simp at h2
    · refine ⟨a, (b :: t).getLastD a, ?_, ?_, ?_⟩
      · rfl
      · exact List.getLast?_cons
      · rw [fromZone_post_code, hz]
        rfl

theorem post_code_derivation_witness :
    (fromZone zoneOnePost).post_code = some "75011" :=
  (post_code_derivation zoneOnePost).2.2.2.1 "75011" (by decide)

/-- A canonical record with both geometries absent (used as a witness
input below). -/
def regionNoGeom : AdministrativeRegion :=
  { id := 0, name := "n", uri := "admin:osm:n", post_code := none
    insee := none, level := some 8, coord := none, boundary := none }

/-- C6: the point `(12, 14)` encodes to exactly `POINT(12 14)`, the unit
square to exactly `MULTIPOLYGON(((0 0,1 0,1 1,0 1,0 0)))`, the geometry
parameters are always the optional well-known-text of `coord` and
`boundary`, and an absent geometry is sent as an absent (null) parameter,
never as an empty string. -/
theorem geometry_encoding :
    wktPoint ⟨12, 14⟩ = "POINT(12 14)" ∧
    wktMultiPolygon unitSquare = "MULTIPOLYGON(((0 0,1 0,1 1,0 1,0 0)))" ∧
    (∀ a : AdministrativeRegion,
      (into_sql_params a)[6]? = some (SqlParam.optionText (a.coord.map wktPoint)) ∧
      (into_sql_params a)[7]?
        = some (SqlParam.optionText (a.boundary.map wktMultiPolygon))) ∧
    (∀ a : AdministrativeRegion, a.coord = none →
      (into_sql_params a)[6]? = some (SqlParam.optionText none) ∧
      (into_sql_params a)[6]? ≠ some (SqlParam.optionText (some ""))) ∧
    (∀ a : AdministrativeRegion, a.boundary = none →
      (into_sql_params a)[7]? = some (SqlParam.optionText none) ∧
      (into_sql_params a)[7]? ≠ some (SqlParam.optionText (some ""))) := by
  refine ⟨by decide, by decide, fun a => ⟨rfl, rfl⟩, ?_, ?_⟩
  · intro a h
    have e1 : (into_sql_params a)[6]?
        = some (SqlParam.optionText (a.coord.map wktPoint)) := rfl
    rw [e1, h]
    exact ⟨rfl, by simp⟩
  · intro a h
    have e1 : (into_sql_params a)[7]?
        = some (SqlParam.optionText (a.boundary.map wktMultiPolygon)) := rfl
    rw [e1, h]
    exact ⟨rfl, by simp⟩

theorem geometry_encoding_witness :
    (into_sql_params regionNoGeom)[6]? = some (SqlParam.optionText none) :=
  (geometry_encoding.2.2.2.1 regionNoGeom rfl).1

/-- C5: the statement rendered for a chunk of `n` records is a single
multi-row `INSERT` whose row `i` (0-based) uses placeholders
`$ (i*8+1)` through `$ (i*8+8)`, the last two wrapped in
`ST_GeomFromText`; and every rendered batch of the pipeline carries the
statement built for its own chunk length. -/
theorem batch_statement_rendering :
    (∀ n : Nat, buildQuery n
        = "INSERT INTO administrative_regions VALUES "
          ++ joinSep ", " ((List.range n).map (fun i =>
            "($" ++ toString (i * 8 + 1) ++ ", $" ++ toString (i * 8 + 2) ++
            ", $" ++ toString (i * 8 + 3) ++ ", $" ++ toString (i * 8 + 4) ++
            ", $" ++ toString (i * 8 + 5) ++ ", $" ++ toString (i * 8 + 6) ++
            ", ST_GeomFromText($" ++ toString (i * 8 + 7) ++
            "), ST_GeomFromText($" ++ toString (i * 8 + 8) ++ "))"))
          ++ ";") ∧
    (∀ admins : List (List SqlParam), ∀ p ∈ renderedBatches admins,
      p.1 = buildQuery p.2.length) := by
  constructor
  · intro n
    rw [buildQuery, queryRows_eq]
    rfl
  · intro admins p hp
    simp only [renderedBatches, List.mem_map] at hp
    rcases hp with ⟨c, _, hc⟩
    rw [← hc]

set_option maxRecDepth 4000 in
theorem batch_statement_rendering_witness :
    (buildQuery 1, [[SqlParam.i64 0]]).1
      = buildQuery (buildQuery 1, [[SqlParam.i64 0]]).2.length :=
  batch_statement_rendering.2 [[SqlParam.i64 0]]
    (buildQuery 1, [[SqlParam.i64 0]]) (by decide)

/-- Three one-parameter rows, a small concrete batch input. -/
def sampleRows : List (List SqlParam) :=
  [[SqlParam.i64 0], [SqlParam.i64 1], [SqlParam.i64 2]]

/-- C4: for `B` records and batch size `S > 0`, `pack` partitions the
input into consecutive chunks of at most `S` records whose concatenation
is the input itself (each record exactly once, in order), every chunk
except possibly the last has exactly `S` records, the number of chunks —
hence of rendered statements — is `ceil(B/S)`; the pipeline's rendering
(`renderedBatches`, batch size 500) is a pure map over these chunks, so
the rendered statement count and the row multiset do not depend on worker
concurrency. -/
theorem batching_correctness (rows : List (List SqlParam)) (S : Nat)
    (hS : 0 < S) :
    (pack S rows).length = (rows.length + S - 1) / S ∧
    (pack S rows).flatten = rows ∧
    (∀ c ∈ pack S rows, c ≠ [] ∧ c.length ≤ S) ∧
    (∀ i, i + 1 < (pack S rows).length →
      ∃ c, (pack S rows)[i]? = some c ∧ c.length = S) ∧
    (renderedBatches rows).length = (rows.length + 499) / 500 ∧
    ((renderedBatches rows).map (fun p => p.2)).flatten = rows := by
  refine ⟨pack_length S hS rows, pack_flatten S hS rows,
    fun c hc => pack_mem S hS rows c hc, fun i hi => pack_full S hS rows i hi,
    ?_, ?_⟩
  · rw [renderedBatches, List.length_map, pack_length 500 (by omega)]
    norm_num
  · rw [renderedBatches_chunks]
    exact pack_flatten 500 (by omega) rows

theorem batching_correctness_witness :
    (pack 2 sampleRows).length = 2 ∧ (pack 2 sampleRows).flatten = sampleRows := by
  have h := batching_correctness sampleRows 2 (by decide)
  refine ⟨?_, h.2.1⟩
  rw [h.1]
  decide

/-! ## Characterization of the transactional load -/

theorem send_to_pg_true_eq (ok : PgStmt → Bool) (c : Bool) (db : DB)
    (admins : List (List SqlParam)) :
    send_to_pg true ok c db admins
      = match (execStmts ok db.table (stmtsOf admins)).2 with
        | some t =>
          if c then (⟨t⟩, true, (execStmts ok db.table (stmtsOf admins)).1)
          else (db, false, (execStmts ok db.table (stmtsOf admins)).1)
        | none => (db, false, (execStmts ok db.table (stmtsOf admins)).1) := rfl

theorem send_to_pg_false_eq (ok : PgStmt → Bool) (c : Bool) (db : DB)
    (admins : List (List SqlParam)) :
    send_to_pg false ok c db admins = (db, false, []) := rfl

theorem send_to_pg_commit_iff (b : Bool) (ok : PgStmt → Bool) (c : Bool)
    (db : DB) (admins : List (List SqlParam)) :
    (send_to_pg b ok c db admins).2.1 = true ↔
      (b = true ∧ c = true ∧ ∀ s ∈ stmtsOf admins, ok s = true) := by
  cases b with
  | false => simp [send_to_pg_false_eq]
  | true =>
    rw [send_to_pg_true_eq]
    rcases hres : (execStmts ok db.table (stmtsOf admins)).2 with _ | t
    · have hnotall : ¬ ∀ s ∈ stmtsOf admins, ok s = true := by
        intro hall
        have hsome := (execStmts_some_iff ok (stmtsOf admins) db.table).2 hall
        rw [hres] at hsome
        simp at hsome
      simp [hnotall]
    · have hall := (execStmts_some_iff ok (stmtsOf admins) db.table).1
        (by rw [hres]; rfl)
      cases c with
      | false => simp
      | true =>
        constructor
        · intro _
          exact ⟨rfl, rfl, hall⟩
        · intro _
          rfl

theorem send_to_pg_table_of_success (b : Bool) (ok : PgStmt → Bool) (c : Bool)
    (db : DB) (admins : List (List SqlParam))
    (h : (send_to_pg b ok c db admins).2.1 = true) :
    (send_to_pg b ok c db admins).1.table = admins := by
  have hcases := (send_to_pg_commit_iff b ok c db admins).1 h
  rcases hcases with ⟨hb, hc, hall⟩
  subst hb
  subst hc
  have hres := execStmts_result ok (stmtsOf admins) db.table hall
  rw [send_to_pg_true_eq, hres]
  simp only [if_true]
  exact stmtsOf_foldl admins db.table

theorem send_to_pg_rollback (b : Bool) (ok : PgStmt → Bool) (c : Bool)
    (db : DB) (admins : List (List SqlParam))
    (h : (send_to_pg b ok c db admins).2.1 = false) :
    (send_to_pg b ok c db admins).1 = db := by
  cases b with
  | false => rw [send_to_pg_false_eq]
  | true =>
    rw [send_to_pg_true_eq] at h ⊢
    rcases hres : (execStmts ok db.table (stmtsOf admins)).2 with _ | t
    · rfl
    · cases c with
      | false => rfl
      | true =>
        rw [hres] at h
        simp at h

theorem send_to_pg_trace (ok : PgStmt → Bool) (c : Bool) (db : DB)
    (admins : List (List SqlParam)) :
    (send_to_pg true ok c db admins).2.2
      = (stmtsOf admins).takeWhile ok
        ++ ((stmtsOf admins).dropWhile ok).take 1 := by
  rw [send_to_pg_true_eq]
  rcases hres : (execStmts ok db.table (stmtsOf admins)).2 with _ | t
  · rw [← execStmts_trace ok (stmtsOf admins) db.table]
  · cases c with
    | false =>
      rw [← execStmts_trace ok (stmtsOf admins) db.table]
      rfl
    | true =>
      rw [← execStmts_trace ok (stmtsOf admins) db.table]
      rfl

/-- C1: the load runs inside one transaction whose statement list is the
table clear followed by the rendered batch statements; statements are
attempted in order up to and including the first failure; the run commits
exactly when the transaction opens, every statement succeeds and the
commit succeeds, in which case the visible table is exactly the input
records; on any failure the visible state is unchanged (full rollback, no
partial load). -/
theorem transactional_load (b : Bool) (ok : PgStmt → Bool) (c : Bool)
    (db : DB) (admins : List (List SqlParam)) :
    stmtsOf admins = PgStmt.truncate ::
      (renderedBatches admins).map (fun qc => PgStmt.insert qc.1 qc.2) ∧
    ((send_to_pg b ok c db admins).2.1 = true ↔
      (b = true ∧ c = true ∧ ∀ s ∈ stmtsOf admins, ok s = true)) ∧
    ((send_to_pg b ok c db admins).2.1 = true →
      (send_to_pg b ok c db admins).1.table = admins) ∧
    ((send_to_pg b ok c db admins).2.1 = false →
      (send_to_pg b ok c db admins).1 = db) ∧
    (b = true → (send_to_pg b ok c db admins).2.2
      = (stmtsOf admins).takeWhile ok
        ++ ((stmtsOf admins).dropWhile ok).take 1) := by
  refine ⟨rfl, send_to_pg_commit_iff b ok c db admins,
    send_to_pg_table_of_success b ok c db admins,
    send_to_pg_rollback b ok c db admins, ?_⟩
  intro hb
  subst hb
  exact send_to_pg_trace ok c db admins

set_option maxRecDepth 20000 in
theorem transactional_load_witness :
    (send_to_pg true (fun _ => true) true ⟨[]⟩ sampleRows).1.table
      = sampleRows ∧
    (send_to_pg true (fun _ => false) true ⟨[[SqlParam.text "old"]]⟩
      sampleRows).1 = ⟨[[SqlParam.text "old"]]⟩ := by
  constructor
  · exact (transactional_load true (fun _ => true) true ⟨[]⟩
      sampleRows).2.2.1 (by decide)
  · exact (transactional_load true (fun _ => false) true
      ⟨[[SqlParam.text "old"]]⟩ sampleRows).2.2.2.1 (by decide)

/-- C7: every row the pipeline renders or loads comes from a zone
classified as a city: each element of the normalized row list is derived
from a member zone whose `zone_type` is the `City` variant, and a
successful load publishes exactly that list, so rows of zones with any
other (or no) classification never reach the destination table. -/
theorem city_filter (zones : List Zone) :
    (∀ r ∈ cities zones, ∃ z ∈ zones,
      z.zone_type = some ZoneType.city ∧ r = into_sql_params (fromZone z)) ∧
    (∀ b ok c db, (import_zones b ok c db zones).2.1 = true →
      (import_zones b ok c db zones).1.table = cities zones) := by
  constructor
  · intro r hr
    simp only [cities, List.mem_map] at hr
    rcases hr with ⟨a, ⟨z, hz, hza⟩, har⟩
    rw [List.mem_filter] at hz
    refine ⟨z, hz.1, ?_, ?_⟩
    · have := hz.2
      rwa [beq_iff_eq] at this
    · rw [← har, ← hza]
  · intro b ok c db h
    exact send_to_pg_table_of_success b ok c db (cities zones) h

set_option maxRecDepth 20000 in
theorem city_filter_witness :
    ∃ z ∈ [zoneSuburb, zoneCity], z.zone_type = some ZoneType.city ∧
      into_sql_params (fromZone zoneCity) = into_sql_params (fromZone z) :=
  (city_filter [zoneSuburb, zoneCity]).1
    (into_sql_params (fromZone zoneCity)) (by decide)
